import Mathlib

/-!
Verification of the certtail monitor (`main.go`) against its natural-language
specification.  The monitor's per-tick behaviour (tree-head poll, cursor
comparison, entry fetch, per-entry classification and output) is embedded as
executable Lean functions; the external collaborators (HTTP transport, the
certificate-transparency-go client, and the x509 parser) appear only through
the values they return, which the embedding takes as inputs.
-/

namespace CertTail

/-! ## Machine-integer helpers

`nextIndex` in `main.go` is an `int64`; tree sizes are `uint64`.  We model
`int64` values as `Int` together with explicit wrapping at the conversion and
increment sites, and `uint64` values as `Nat` (callers supply `< 2^64` bounds
where they matter). -/

/-- Wrap an integer into the `int64` range `[-2^63, 2^63)`, as Go's
two's-complement arithmetic and `uint64 -> int64` conversion do. -/
def wrap64 (i : Int) : Int := (i + 2 ^ 63) % 2 ^ 64 - 2 ^ 63

/-- Go's `int64(u)` for a `uint64` value `u` (modelled as a `Nat`). -/
def int64OfUInt64 (n : Nat) : Int := wrap64 (n : Int)

/-- Go's `uint64(i)` for an `int64` value `i`: reinterpret modulo `2^64`
(line 90 of `main.go` casts `nextIndex` this way). -/
def uint64OfInt64 (i : Int) : Nat := (i % 2 ^ 64).toNat

/-! ## The external x509 library's view of a certificate

Certificate byte-level parsing is an external collaborator (the
`certificate-transparency-go/x509` fork).  A parsed certificate is modelled by
the attributes `main.go` and the spec's name-extraction policy consult:
the issuer and subject distinguished names and the DNS subject-alternative
names.  Distinguished names are modelled restricted to their common-name
attribute, which is the only attribute either the spec or the witnesses
need. -/

/-- A distinguished name as parsed by the external x509 library, restricted to
its common-name attribute. -/
structure Name where
  commonName : String
deriving DecidableEq

/-- `pkix.Name.String()` of the external library, for a name whose only
attribute is the common name: such a name renders as `CN=<cn>`, and a name
with no attributes at all renders as the empty string (the library skips an
empty `CommonName` when building the RDN sequence). -/
def Name.string (n : Name) : String :=
  if n.commonName = "" then "" else "CN=" ++ n.commonName

/-- A certificate as returned by the external parser. -/
structure Certificate where
  issuer : Name
  subject : Name
  dnsNames : List String
deriving DecidableEq

/-- The raw DER bytes held in a log entry's `X509Cert.Raw` field, modelled by
the outcome the external `x509.ParseCertificate` produces on them (line 106 of
`main.go` performs that call; `none` models a parse error). -/
structure ASN1Cert where
  parse : Option Certificate
deriving DecidableEq

/-- One `ct.LogEntry` as returned by the client's entry fetch:
`x509Cert` models the `entry.X509Cert` pointer (line 104), `precert` the
`entry.Precert` pointer (line 127), and `leafTimestamp` the
`entry.Leaf.TimestampedEntry` pointer together with its `Timestamp` field
(a `uint64` count of milliseconds since the Unix epoch, lines 117-118). -/
structure LogEntry where
  x509Cert : Option ASN1Cert
  precert : Option Unit
  leafTimestamp : Option Nat
deriving DecidableEq

/-! ## Timestamp rendering (lines 118-120)

`time.Unix(0, int64(ts)*int64(time.Millisecond)).Format(time.RFC3339)`:
the `uint64` timestamp is converted to `int64`, multiplied by `10^6`
(both steps wrap), normalised to whole seconds by floor division (Go's
`time.Unix` normalisation), converted to a civil date, and printed in the
RFC 3339 layout.  Go renders in the local zone; the embedding fixes the zone
to UTC (offset `Z`), the zone being process environment rather than program
behaviour.  Divisions below are Lean's `Int` `/` and `%` (Euclidean), which
coincide with floor division since every divisor is positive. -/

/-- Civil date `(year, month, day)` of a day count relative to 1970-01-01
(Gregorian calendar, proleptic). -/
def civilFromDays (z0 : Int) : Int × Int × Int :=
  let z := z0 + 719468
  let era := z / 146097
  let doe := z % 146097
  let yoe := (doe - doe / 1460 + doe / 36524 - doe / 146096) / 365
  let y := yoe + era * 400
  let doy := doe - (365 * yoe + yoe / 4 - yoe / 100)
  let mp := (5 * doy + 2) / 153
  let d := doy - (153 * mp + 2) / 5 + 1
  let m := mp + (if mp < 10 then 3 else -9)
  (y + (if m ≤ 2 then 1 else 0), m, d)

/-- Zero-pad to two digits. -/
def pad2 (n : Int) : String :=
  if n < 10 then "0" ++ toString n else toString n

/-- Zero-pad to four digits. -/
def pad4 (n : Int) : String :=
  if n < 10 then "000" ++ toString n
  else if n < 100 then "00" ++ toString n
  else if n < 1000 then "0" ++ toString n
  else toString n

/-- RFC 3339 rendering (UTC) of a count of seconds since the Unix epoch. -/
def rfc3339OfSeconds (sec : Int) : String :=
  let days := sec / 86400
  let sod := sec % 86400
  let c := civilFromDays days
  pad4 c.1 ++ "-" ++ pad2 c.2.1 ++ "-" ++ pad2 c.2.2 ++ "T" ++
    pad2 (sod / 3600) ++ ":" ++ pad2 (sod % 3600 / 60) ++ ":" ++
    pad2 (sod % 60) ++ "Z"

/-- Line 118 of `main.go`: the printed timestamp string for a leaf timestamp
`ts` (`uint64` milliseconds), including the two `int64` wraps the Go
expression performs. -/
def formatEntryTimestamp (ts : Nat) : String :=
  rfc3339OfSeconds (wrap64 (wrap64 (ts : Int) * 1000000) / 1000000000)

/-- Follows the spec's words (§4.2): the leaf timestamp is a
millisecond-resolution epoch value; convert to a calendar timestamp and render
it in RFC 3339. -/
def specRenderTimestamp (ms : Nat) : String :=
  rfc3339OfSeconds ((ms : Int) / 1000)

/-! ## Per-entry classification (lines 102-131) -/

/-- The record printed by the `fmt.Printf` on lines 119-123, by field. -/
structure OutputRecord where
  timestamp : String
  issuer : String
  subject : String
deriving DecidableEq

/-- What processing one entry produced: an output record, or one of the four
skip cases (each `log.Printf` skip that mentions an index logs
`nextIndex - 1`, the already-incremented cursor minus one). -/
inductive EntryOutcome where
  | emitted (r : OutputRecord)
  | skipParseFailed
  | skipMissingTimestamp (index : Int)
  | skipPrecert (index : Int)
  | skipUnknown (index : Int)
deriving DecidableEq

/-- The body of the entry loop after the cursor increment (lines 104-131):
`n'` is the value of `nextIndex` after the `nextIndex++` on line 103. -/
def classifyEntry (n' : Int) (e : LogEntry) : EntryOutcome :=
  match e.x509Cert with
  | some raw =>
    match raw.parse with
    | none => .skipParseFailed
    | some cert =>
      match e.leafTimestamp with
      | some ts =>
        .emitted ⟨formatEntryTimestamp ts, cert.issuer.string, cert.subject.string⟩
      | none => .skipMissingTimestamp (wrap64 (n' - 1))
  | none =>
    match e.precert with
    | some _ => .skipPrecert (wrap64 (n' - 1))
    | none => .skipUnknown (wrap64 (n' - 1))

/-- The record an outcome contributes to standard output: one for an emitted
record, none for any skip. -/
def outcomeRecords : EntryOutcome → List OutputRecord
  | .emitted r => [r]
  | _ => []

/-- The entry loop (lines 102-132): for each entry, increment `nextIndex`
(with `int64` wrap) and then classify.  Returns the final cursor and the
outcomes in entry order. -/
def processEntries : Int → List LogEntry → Int × List EntryOutcome
  | _n, [] => (_n, [])
  | n, e :: rest =>
    let n' := wrap64 (n + 1)
    let r := processEntries n' rest
    (r.1, classifyEntry n' e :: r.2)

/-! ## One tick of the monitor loop (lines 82-132) -/

/-- What the external world returns during one tick: the `GetSTH` outcome
(`none` models an error, otherwise the reported `TreeSize`), and the
`GetEntries` outcome should that call be made (`none` models an error). -/
structure TickInput where
  sth : Option Nat
  entries : Option (List LogEntry)
deriving DecidableEq

/-- Observable result of one tick: the new cursor, the `(start, end)`
argument pair passed to `GetEntries` if that call was made, and the per-entry
outcomes. -/
structure TickOutput where
  state : Int
  fetch : Option (Int × Int)
  outcomes : List EntryOutcome
deriving DecidableEq

/-- One iteration of the `case <-ticker.C` body (lines 83-132), starting from
cursor `n`:  poll the STH (on error, continue); if
`TreeSize <= uint64(nextIndex)`, continue; otherwise call
`GetEntries(nextIndex, int64(TreeSize))` (on error, continue) and run the
entry loop on whatever it returned. -/
def tick (n : Int) (inp : TickInput) : TickOutput :=
  match inp.sth with
  | none => ⟨n, none, []⟩
  | some sz =>
    if sz ≤ uint64OfInt64 n then ⟨n, none, []⟩
    else
      match inp.entries with
      | none => ⟨n, some (n, int64OfUInt64 sz), []⟩
      | some es =>
        let r := processEntries n es
        ⟨r.1, some (n, int64OfUInt64 sz), r.2⟩

/-- The records a tick prints to standard output. -/
def tickRecords (t : TickOutput) : List OutputRecord :=
  t.outcomes.foldr (fun o acc => outcomeRecords o ++ acc) []

/-- Run the monitor loop over a finite sequence of tick inputs, collecting
every tick's observable output. -/
def runTicks : Int → List TickInput → Int × List TickOutput
  | n, [] => (n, [])
  | n, inp :: rest =>
    let t := tick n inp
    let r := runTicks t.state rest
    (r.1, t :: r.2)

/-- Number of entries a tick input's fetch would hand to the entry loop. -/
def entLen (inp : TickInput) : Nat :=
  match inp.entries with
  | some es => es.length
  | none => 0

/-- Total entry count over a sequence of tick inputs. -/
def totalEntries (inps : List TickInput) : Nat := (inps.map entLen).sum

/-- Line 78 of `main.go`: `var nextIndex int64 = int64(sth.TreeSize)`. -/
def initialCursor (sz : Nat) : Int := int64OfUInt64 sz

/-! ## The entry-fetch range convention

`main.go` line 96 calls `logClient.GetEntries(ctx, nextIndex,
int64(currentSTH.TreeSize))`.  `client.GetEntries` of
github.com/google/certificate-transparency-go — the client `main` constructs
on line 61 — retrieves the entries in the sequence `[start, end]` from the CT
log server per RFC 6962 §4.6, whose `get-entries` parameters `start` and
`end` are the 0-based indices of the first and *last* entry to retrieve:
both endpoints are inclusive. -/

/-- The set of entry indices a `GetEntries(start, end)` call asks the log
server for: the inclusive range `[start, end]`. -/
def getEntriesRequested (s e i : Int) : Prop := s ≤ i ∧ i ≤ e

instance (s e i : Int) : Decidable (getEntriesRequested s e i) := by
  unfold getEntriesRequested
  infer_instance

/-- Follows the spec's words (§6): the fetch range is the half-open
`[start_index, end_index)`. -/
def specRequestedHalfOpen (s e i : Int) : Prop := s ≤ i ∧ i < e

instance (s e i : Int) : Decidable (specRequestedHalfOpen s e i) := by
  unfold specRequestedHalfOpen
  infer_instance

/-! ## Spec-side name extraction

The spec's §4.2 name-extraction policy, kept separate from the embedding of
the code so the two can be compared. -/

/-- Follows the spec's words (§4.2): if the certificate carries one or more
DNS subject-alternative names, join them with `", "` in certificate order;
otherwise fall back to the subject common name (possibly empty). -/
def specNameField (c : Certificate) : String :=
  if c.dnsNames.isEmpty then c.subject.commonName
  else String.intercalate ", " c.dnsNames

/-! ## Skip classification -/

/-- An entry in one of the four skip categories of spec §7: certificate parse
failure, missing leaf timestamp, precertificate, or unknown type (the latter
two are exactly the entries whose `X509Cert` pointer is nil, split by the
`Precert` pointer on line 127). -/
def isSkipEntry (e : LogEntry) : Bool :=
  match e.x509Cert with
  | some raw => raw.parse.isNone || e.leafTimestamp.isNone
  | none => true

/-! ## The loop's event vocabulary (lines 80-134)

The `for { select { ... } }` loop waits on exactly one channel: `ticker.C`.
`LoopEvent` is the type of events an iteration of the loop can observe, one
constructor per `case` of the `select`; `loopIter` is one iteration of the
loop, returning `some` of the new cursor when the iteration falls through to
the next one and `none` if it left the loop — no statement in the body
(lines 83-132) is a `break` or `return`, so no branch produces `none`. -/

inductive LoopEvent where
  | tickFired (inp : TickInput)
deriving DecidableEq

/-- One full iteration of the monitor loop: observe an event, run the
corresponding `case` body, continue. -/
def loopIter (n : Int) (ev : LoopEvent) : Option Int :=
  match ev with
  | .tickFired inp => some (tick n inp).state

/-! ## Log-list selection (lines 22-58)

The log-list document itself arrives through the external `getLogList`
fetch; the selection loop over its operators is in `main`. -/

/-- `LogInfo` of `main.go`. -/
structure LogInfo where
  url : String
  description : String
deriving DecidableEq

/-- `Operator` of `main.go`. -/
structure Operator where
  name : String
  email : List String
  logs : List LogInfo
deriving DecidableEq

/-- `LogList` of `main.go`. -/
structure LogList where
  operators : List Operator
deriving DecidableEq

/-- The selection loop of lines 44-54: scan the operators in list order and
take the first log of the first operator whose log list is non-empty. -/
def selectLog : List Operator → Option LogInfo
  | [] => none
  | op :: rest =>
    match op.logs with
    | [] => selectLog rest
    | l :: _ => some l

/-- Lines 44-58 as a whole: the selected log, or the fatal
`log.Fatal("No logs found in the log list.")` outcome when no operator has a
non-empty log list. -/
def startupSelection (ll : LogList) : Except String LogInfo :=
  match selectLog ll.operators with
  | some info => .ok info
  | none => .error "No logs found in the log list."

/-- The logs `main` starts a monitor loop for: the single selected log (there
is exactly one monitoring loop in the program, lines 80-134; no per-log
fan-out exists). -/
def monitoredLogs (ll : LogList) : List LogInfo :=
  match selectLog ll.operators with
  | some info => [info]
  | none => []

/-! ## Arithmetic lemmas about the machine-integer helpers -/

lemma wrap64_eq {i : Int} (h1 : -(2 ^ 63) ≤ i) (h2 : i < 2 ^ 63) :
    wrap64 i = i := by
  unfold wrap64
  omega

lemma uint64OfInt64_le_iff {n : Int} {sz : Nat} (h0 : 0 ≤ n) (h1 : n < 2 ^ 63) :
    (sz ≤ uint64OfInt64 n) ↔ ((sz : Int) ≤ n) := by
  unfold uint64OfInt64
  omega

lemma int64OfUInt64_eq {sz : Nat} (h : sz < 2 ^ 63) :
    int64OfUInt64 sz = (sz : Int) := by
  unfold int64OfUInt64 wrap64
  omega

lemma uint64OfInt64_cast {n : Int} (h0 : 0 ≤ n) (h1 : n < 2 ^ 63) :
    ((uint64OfInt64 n : Nat) : Int) = n := by
  unfold uint64OfInt64
  omega

/-! ## Lemmas about the entry loop -/

lemma processEntries_cons (n : Int) (e : LogEntry) (rest : List LogEntry) :
    processEntries n (e :: rest) =
      ((processEntries (wrap64 (n + 1)) rest).1,
        classifyEntry (wrap64 (n + 1)) e ::
          (processEntries (wrap64 (n + 1)) rest).2) := rfl

lemma processEntries_fst_eq {n : Int} {es : List LogEntry}
    (h0 : 0 ≤ n) (h : n + es.length < 2 ^ 63) :
    (processEntries n es).1 = n + es.length := by
  induction es generalizing n with
  | nil => simp [processEntries]
  | cons e rest ih =>
    rw [processEntries_cons]
    have hw : wrap64 (n + 1) = n + 1 := by
      apply wrap64_eq <;> simp at h ⊢ <;> omega
    rw [hw]
    rw [ih (by omega) (by simp at h ⊢; omega)]
    simp
    ring

lemma processEntries_snd_length (n : Int) (es : List LogEntry) :
    (processEntries n es).2.length = es.length := by
  induction es generalizing n with
  | nil => simp [processEntries]
  | cons e rest ih =>
    rw [processEntries_cons]
    simp [ih]

lemma processEntries_fst_of_length {n : Int} {es es' : List LogEntry}
    (h : es.length = es'.length) :
    (processEntries n es).1 = (processEntries n es').1 := by
  induction es generalizing n es' with
  | nil => cases es' with
    | nil => rfl
    | cons _ _ => simp at h
  | cons e rest ih =>
    cases es' with
    | nil => simp at h
    | cons e' rest' =>
      rw [processEntries_cons, processEntries_cons]
      simp only at h ⊢
      exact ih (by simpa using h)

/-! ## Lemmas about one tick -/

lemma tick_sth_err (n : Int) (inp : TickInput) (h : inp.sth = none) :
    tick n inp = ⟨n, none, []⟩ := by
  unfold tick
  rw [h]

lemma tick_noop {n : Int} {sz : Nat} (inp : TickInput)
    (hs : inp.sth = some sz) (hle : sz ≤ uint64OfInt64 n) :
    tick n inp = ⟨n, none, []⟩ := by
  unfold tick
  rw [hs]
  simp [hle]

lemma tick_fetch_err {n : Int} {sz : Nat} (inp : TickInput)
    (hs : inp.sth = some sz) (hgt : uint64OfInt64 n < sz)
    (he : inp.entries = none) :
    tick n inp = ⟨n, some (n, int64OfUInt64 sz), []⟩ := by
  unfold tick
  rw [hs, he]
  simp [Nat.not_le.mpr hgt]

lemma tick_fetch_ok {n : Int} {sz : Nat} {es : List LogEntry} (inp : TickInput)
    (hs : inp.sth = some sz) (hgt : uint64OfInt64 n < sz)
    (he : inp.entries = some es) :
    tick n inp =
      ⟨(processEntries n es).1, some (n, int64OfUInt64 sz),
        (processEntries n es).2⟩ := by
  unfold tick
  rw [hs, he]
  simp [Nat.not_le.mpr hgt]

lemma tick_state_bounds {n : Int} (inp : TickInput)
    (h0 : 0 ≤ n) (h : n + entLen inp < 2 ^ 63) :
    n ≤ (tick n inp).state ∧ (tick n inp).state ≤ n + entLen inp := by
  cases hs : inp.sth with
  | none =>
    rw [tick_sth_err n inp hs]
    refine ⟨le_refl n, ?_⟩
    show n ≤ n + (entLen inp : Int)
    omega
  | some sz =>
    by_cases hle : sz ≤ uint64OfInt64 n
    · rw [tick_noop inp hs hle]
      refine ⟨le_refl n, ?_⟩
      show n ≤ n + (entLen inp : Int)
      omega
    · cases he : inp.entries with
      | none =>
        rw [tick_fetch_err inp hs (Nat.not_le.mp hle) he]
        refine ⟨le_refl n, ?_⟩
        show n ≤ n + (entLen inp : Int)
        omega
      | some es =>
        rw [tick_fetch_ok inp hs (Nat.not_le.mp hle) he]
        have hl : entLen inp = es.length := by unfold entLen; rw [he]
        rw [hl] at h ⊢
        have hpe := @processEntries_fst_eq n es h0 h
        show n ≤ (processEntries n es).1 ∧
          (processEntries n es).1 ≤ n + (es.length : Int)
        omega

lemma tick_fetch_shape (n : Int) (inp : TickInput) :
    (tick n inp).fetch = none ∨
      ∃ sz : Nat, inp.sth = some sz ∧
        (tick n inp).fetch = some (n, int64OfUInt64 sz) := by
  unfold tick
  cases hs : inp.sth with
  | none => simp
  | some sz =>
    by_cases hle : sz ≤ uint64OfInt64 n
    · simp [hle]
    · cases he : inp.entries with
      | none => simp [hle]
      | some es => simp [hle]

/-! ## Lemmas about running many ticks -/

lemma runTicks_cons (n : Int) (inp : TickInput) (rest : List TickInput) :
    runTicks n (inp :: rest) =
      ((runTicks (tick n inp).state rest).1,
        tick n inp :: (runTicks (tick n inp).state rest).2) := rfl

lemma runTicks_bounds {n : Int} {inps : List TickInput}
    (h0 : 0 ≤ n) (h : n + totalEntries inps < 2 ^ 63) :
    n ≤ (runTicks n inps).1 ∧
      (runTicks n inps).1 ≤ n + totalEntries inps := by
  induction inps generalizing n with
  | nil => simp [runTicks, totalEntries]
  | cons inp rest ih =>
    have htot : totalEntries (inp :: rest) = entLen inp + totalEntries rest := by
      simp [totalEntries]
    rw [htot] at h
    have hb := tick_state_bounds inp h0 (by omega)
    rw [runTicks_cons]
    have ih' := @ih (tick n inp).state (by omega) (by omega)
    constructor
    · omega
    · simp only
      omega

lemma runTicks_append_fst (n : Int) (l1 l2 : List TickInput) :
    (runTicks n (l1 ++ l2)).1 = (runTicks (runTicks n l1).1 l2).1 := by
  induction l1 generalizing n with
  | nil => simp [runTicks]
  | cons inp rest ih =>
    rw [List.cons_append, runTicks_cons, runTicks_cons]
    simp only
    exact ih (tick n inp).state

lemma runTicks_fetch_start {n : Int} {inps : List TickInput}
    (h0 : 0 ≤ n) (h : n + totalEntries inps < 2 ^ 63) :
    ∀ t ∈ (runTicks n inps).2, ∀ s e : Int, t.fetch = some (s, e) → n ≤ s := by
  induction inps generalizing n with
  | nil => simp [runTicks]
  | cons inp rest ih =>
    have htot : totalEntries (inp :: rest) = entLen inp + totalEntries rest := by
      simp [totalEntries]
    rw [htot] at h
    have hb := tick_state_bounds inp h0 (by omega)
    rw [runTicks_cons]
    intro t ht s e hf
    simp only [List.mem_cons] at ht
    cases ht with
    | inl hhead =>
      subst hhead
      rcases tick_fetch_shape n inp with hnone | ⟨sz, _, hsome⟩
      · rw [hnone] at hf; cases hf
      · rw [hsome] at hf
        cases hf
        exact le_refl n
    | inr htail =>
      have := @ih (tick n inp).state (by omega) (by omega) t htail s e hf
      omega

lemma selectLog_all_empty {ops : List Operator} (h : ∀ p ∈ ops, p.logs = []) :
    selectLog ops = none := by
  induction ops with
  | nil => rfl
  | cons op rest ih =>
    have hop : op.logs = [] := h op (List.mem_cons_self _ _)
    have hrest := ih (fun p hp => h p (List.mem_cons_of_mem _ hp))
    simp [selectLog, hop, hrest]

/-! ## The claims -/

/-- Claim C1 as stated is false on the code: for the successfully parsed X509
leaf below, whose certificate carries the DNS subject-alternative names
`["a.example", "b.example"]` and subject common name `"foo"`, the name field
of the emitted record (the `Subject:` field printed on lines 119-123) is the
subject distinguished-name rendering `"CN=foo"` produced by
`cert.Subject.String()`, not the `", "`-join `"a.example, b.example"` the
claim prescribes — `main.go` never reads the DNS subject-alternative
names. -/
theorem c1_counterexample :
    classifyEntry 101
        ⟨some ⟨some ⟨⟨"Example CA"⟩, ⟨"foo"⟩, ["a.example", "b.example"]⟩⟩,
          none, some 1700000000000⟩ =
      .emitted ⟨formatEntryTimestamp 1700000000000, "CN=Example CA",
        "CN=foo"⟩ ∧
    specNameField ⟨⟨"Example CA"⟩, ⟨"foo"⟩, ["a.example", "b.example"]⟩ =
      "a.example, b.example" ∧
    "CN=foo" ≠ "a.example, b.example" := by
  refine ⟨rfl, rfl, by decide⟩

/-- Claim C1 amended: for every successfully parsed X509 leaf entry carrying
a leaf timestamp, the name field of the emitted output record is the
certificate's subject distinguished name as rendered by the external
library's `String()` (and the issuer field is likewise the rendered issuer
name); the certificate's DNS subject-alternative names are never consulted —
replacing them with any other list leaves the outcome unchanged. -/
theorem c1_theorem (n' : Int) (e : LogEntry) (raw : ASN1Cert)
    (cert : Certificate) (ts : Nat)
    (hx : e.x509Cert = some raw) (hp : raw.parse = some cert)
    (ht : e.leafTimestamp = some ts) :
    classifyEntry n' e =
      .emitted ⟨formatEntryTimestamp ts, cert.issuer.string,
        cert.subject.string⟩ ∧
    ∀ alt : List String,
      classifyEntry n'
          { e with x509Cert := some ⟨some { cert with dnsNames := alt }⟩ } =
        classifyEntry n' e := by
  obtain ⟨x, pc, lt⟩ := e
  replace hx : x = some raw := hx
  replace ht : lt = some ts := ht
  subst hx ht
  constructor
  · simp [classifyEntry, hp]
  · intro alt
    simp [classifyEntry, hp]

set_option maxRecDepth 8000 in
/-- Witness for the amended C1 at a concrete entry with no DNS names and
subject common name `"bar"`. -/
theorem c1_witness :
    classifyEntry 1 ⟨some ⟨some ⟨⟨"Issuer Org"⟩, ⟨"bar"⟩, []⟩⟩,
        none, some 0⟩ =
      .emitted ⟨"1970-01-01T00:00:00Z", "CN=Issuer Org", "CN=bar"⟩ := by
  have h := c1_theorem 1
    ⟨some ⟨some ⟨⟨"Issuer Org"⟩, ⟨"bar"⟩, []⟩⟩, none, some 0⟩
    ⟨some ⟨⟨"Issuer Org"⟩, ⟨"bar"⟩, []⟩⟩ ⟨⟨"Issuer Org"⟩, ⟨"bar"⟩, []⟩ 0
    rfl rfl rfl
  exact h.1.trans (by decide)

/-- Claim C2 as stated is false on the code: from cursor 100 with polled tree
size 105, the monitor calls `GetEntries(100, 105)`, and under the client's
inclusive range convention (RFC 6962 get-entries) index 105 — exactly
`TreeHead.size` — is requested, although it is not in the half-open range
`[100, 105)`. -/
theorem c2_counterexample :
    (tick 100 ⟨some 105, some []⟩).fetch = some (100, 105) ∧
    getEntriesRequested 100 105 105 ∧
    ¬ specRequestedHalfOpen 100 105 105 := by
  refine ⟨by decide, by decide, by decide⟩

/-- Claim C2 amended: whenever a tick's polled tree size strictly exceeds the
cursor, the monitor makes exactly one entry-fetch call, with
`start = Cursor.next_index` and `end = TreeHead.size`; the client's range is
inclusive at both ends, so the requested indices are
`[Cursor.next_index, TreeHead.size]` — including index `TreeHead.size`
itself, which is not yet in the tree — and the requested indices that do lie
in the tree are exactly the half-open range
`[Cursor.next_index, TreeHead.size)`. -/
theorem c2_theorem (n : Int) (sz : Nat) (inp : TickInput)
    (h0 : 0 ≤ n) (hs : inp.sth = some sz) (hlt : n < (sz : Int))
    (hsz : sz < 2 ^ 63) :
    (tick n inp).fetch = some (n, (sz : Int)) ∧
    (∀ i : Int, getEntriesRequested n sz i ↔ n ≤ i ∧ i ≤ sz) ∧
    (∀ i : Int, getEntriesRequested n sz i ∧ i < sz ↔
      specRequestedHalfOpen n sz i) := by
  have hn63 : n < 2 ^ 63 := by
    have hsz' : (sz : Int) < 2 ^ 63 := by exact_mod_cast hsz
    omega
  have hgt : uint64OfInt64 n < sz := by
    have hc := uint64OfInt64_cast h0 hn63
    omega
  refine ⟨?_, fun i => Iff.rfl, ?_⟩
  · cases he : inp.entries with
    | none =>
      rw [tick_fetch_err inp hs hgt he, int64OfUInt64_eq hsz]
    | some es =>
      rw [tick_fetch_ok inp hs hgt he, int64OfUInt64_eq hsz]
  · intro i
    unfold getEntriesRequested specRequestedHalfOpen
    omega

/-- Witness for the amended C2 at cursor 100, tree size 105, failed fetch. -/
theorem c2_witness :
    (tick 100 ⟨some 105, none⟩).fetch = some (100, 105) ∧
    getEntriesRequested 100 105 103 := by
  have h := c2_theorem 100 105 ⟨some 105, none⟩ (by decide) rfl
    (by decide) (by decide)
  exact ⟨h.1.trans (by decide), (h.2.1 103).mpr (by decide)⟩

/-- Claim C5: on a tick whose tree-head poll fails the monitor does nothing
at all (unchanged cursor, no fetch, no records), and on a tick whose entry
fetch fails the cursor is unchanged and no records are emitted; the monitor
state being unchanged, any later tick that polls the same tree size makes the
identical fetch call (there is no retry within the tick and no backoff: the
tick makes at most the one fetch call recorded in its output). -/
theorem c5_theorem (n : Int) (inp : TickInput) :
    (inp.sth = none → tick n inp = ⟨n, none, []⟩) ∧
    (∀ sz : Nat, inp.sth = some sz → inp.entries = none →
      (tick n inp).state = n ∧ tickRecords (tick n inp) = [] ∧
      ∀ inp2 : TickInput, inp2.sth = some sz →
        (tick n inp2).fetch = (tick n inp).fetch) := by
  constructor
  · intro h
    exact tick_sth_err n inp h
  · intro sz hs he
    by_cases hle : sz ≤ uint64OfInt64 n
    · rw [tick_noop inp hs hle]
      refine ⟨rfl, rfl, ?_⟩
      intro inp2 hs2
      rw [tick_noop inp2 hs2 hle]
    · have hgt := Nat.not_le.mp hle
      rw [tick_fetch_err inp hs hgt he]
      refine ⟨rfl, rfl, ?_⟩
      intro inp2 hs2
      cases he2 : inp2.entries with
      | none => rw [tick_fetch_err inp2 hs2 hgt he2]
      | some es => rw [tick_fetch_ok inp2 hs2 hgt he2]

/-- Witness for C5: poll failure and fetch failure at cursor 42, and the
fetch call repeated identically by a later successful tick polling the same
size. -/
theorem c5_witness :
    tick 42 ⟨none, none⟩ = ⟨42, none, []⟩ ∧
    (tick 42 ⟨some 50, none⟩).state = 42 ∧
    (tick 42 ⟨some 50, some [⟨none, some (), none⟩]⟩).fetch =
      (tick 42 ⟨some 50, none⟩).fetch := by
  have h := c5_theorem 42 ⟨some 50, none⟩
  have h0 := c5_theorem 42 ⟨none, none⟩
  exact ⟨h0.1 rfl, (h.2 50 rfl rfl).1,
    (h.2 50 rfl rfl).2.2 ⟨some 50, some [⟨none, some (), none⟩]⟩ rfl⟩

/-- Claim C6: a tick whose polled tree size is at most the cursor performs no
entry fetch, emits no output records, and leaves the monitor's whole
observable state — the cursor — unchanged.  (Stated for cursors in the
`int64` range `[0, 2^63)`, where Go's `uint64(nextIndex)` comparison on
line 90 agrees with the integer comparison.) -/
theorem c6_theorem (n : Int) (sz : Nat) (inp : TickInput)
    (h0 : 0 ≤ n) (h1 : n < 2 ^ 63)
    (hs : inp.sth = some sz) (hle : (sz : Int) ≤ n) :
    tick n inp = ⟨n, none, []⟩ ∧ tickRecords (tick n inp) = [] := by
  have hle' : sz ≤ uint64OfInt64 n := by
    have hc := uint64OfInt64_cast h0 h1
    omega
  have ht := tick_noop inp hs hle'
  exact ⟨ht, by rw [ht]; rfl⟩

/-- Witness for C6: cursor 100, polled size 100, entries standing by that are
never fetched. -/
theorem c6_witness :
    tick 100 ⟨some 100, some [⟨none, none, none⟩]⟩ = ⟨100, none, []⟩ := by
  exact (c6_theorem 100 100 ⟨some 100, some [⟨none, none, none⟩]⟩
    (by decide) (by decide) rfl (by decide)).1

/-- Claim C9 as stated is false on the code: the loop on lines 80-134 selects
on exactly one channel — the ticker — so a shutdown signal is not among the
events an iteration can observe, and no iteration ever exits the loop: there
is no input whatsoever on which `loopIter` returns `none`. -/
theorem c9_counterexample :
    ¬ ∃ (n : Int) (ev : LoopEvent), loopIter n ev = none := by
  rintro ⟨n, ev, h⟩
  cases ev with
  | tickFired inp => simp [loopIter] at h

/-- Claim C9 amended: the only event the monitor's wait can observe is a
ticker fire — the `select` has no shutdown case — and every iteration of the
loop continues into the next one; the loop has no exit path and no `Stopped`
transition exists (the process stops only by being terminated externally,
e.g. by the runtime's default interrupt handling, never by the loop
returning). -/
theorem c9_theorem (n : Int) (ev : LoopEvent) :
    (∃ inp : TickInput, ev = .tickFired inp ∧
      loopIter n ev = some (tick n inp).state) ∧
    (loopIter n ev).isSome = true := by
  cases ev with
  | tickFired inp => exact ⟨⟨inp, rfl, rfl⟩, rfl⟩

/-- Claim C10: the program monitors exactly one log — the first log of the
first operator, in list order, whose log list is non-empty; at most one log
is ever monitored, and a log list in which every operator has an empty log
list makes startup fail with the fatal "No logs found" outcome. -/
theorem c10_theorem :
    (∀ (pre : List Operator) (op : Operator) (post : List Operator)
        (l : LogInfo) (ls : List LogInfo),
      (∀ p ∈ pre, p.logs = []) → op.logs = l :: ls →
      selectLog (pre ++ op :: post) = some l) ∧
    (∀ ops : List Operator, (∀ p ∈ ops, p.logs = []) →
      startupSelection ⟨ops⟩ = .error "No logs found in the log list.") ∧
    (∀ ll : LogList, (monitoredLogs ll).length ≤ 1) := by
  refine ⟨?_, ?_, ?_⟩
  · intro pre op post l ls hpre hop
    induction pre with
    | nil => simp [selectLog, hop]
    | cons p rest ih =>
      have hp : p.logs = [] := hpre p (List.mem_cons_self _ _)
      have ih' := ih (fun q hq => hpre q (List.mem_cons_of_mem _ hq))
      simpa [selectLog, hp] using ih'
  · intro ops h
    unfold startupSelection
    rw [selectLog_all_empty h]
  · intro ll
    unfold monitoredLogs
    cases h : selectLog ll.operators <;> simp

/-- Witness for C10: operator "A" has no logs, so the first log of operator
"B" is selected and operators and logs after it are ignored; a list whose
only operator has no logs is fatal. -/
theorem c10_witness :
    selectLog [⟨"A", [], []⟩,
        ⟨"B", ["crt@b.example"], [⟨"u1", "d1"⟩, ⟨"u2", "d2"⟩]⟩,
        ⟨"C", [], [⟨"u3", "d3"⟩]⟩] = some ⟨"u1", "d1"⟩ ∧
    startupSelection ⟨[⟨"A", [], []⟩]⟩ =
      .error "No logs found in the log list." := by
  refine ⟨?_, c10_theorem.2.1 [⟨"A", [], []⟩] (by decide)⟩
  exact c10_theorem.1 [⟨"A", [], []⟩]
    ⟨"B", ["crt@b.example"], [⟨"u1", "d1"⟩, ⟨"u2", "d2"⟩]⟩
    [⟨"C", [], [⟨"u3", "d3"⟩]⟩] ⟨"u1", "d1"⟩ [⟨"u2", "d2"⟩]
    (by decide) rfl

/-- Claim C3: (i) the entry loop increments the cursor first — the
classification of an entry already sees the incremented cursor — and runs
unconditionally for each returned entry; (ii) the cursor after the loop
depends only on how many entries were returned, never on any classification
outcome; (iii) a tick with a successful fetch advances the cursor by exactly
the number of returned entries (within the `int64` range); (iv) over any
sequence of ticks the cursor is non-decreasing. -/
theorem c3_theorem :
    (∀ (n : Int) (e : LogEntry) (es : List LogEntry),
      processEntries n (e :: es) =
        ((processEntries (wrap64 (n + 1)) es).1,
          classifyEntry (wrap64 (n + 1)) e ::
            (processEntries (wrap64 (n + 1)) es).2)) ∧
    (∀ (n : Int) (es es' : List LogEntry), es.length = es'.length →
      (processEntries n es).1 = (processEntries n es').1) ∧
    (∀ (n : Int) (sz : Nat) (es : List LogEntry) (inp : TickInput),
      inp.sth = some sz → inp.entries = some es → uint64OfInt64 n < sz →
      0 ≤ n → n + es.length < 2 ^ 63 →
      (tick n inp).state = n + es.length) ∧
    (∀ (n0 : Int) (l1 l2 : List TickInput),
      0 ≤ n0 → n0 + totalEntries (l1 ++ l2) < 2 ^ 63 →
      (runTicks n0 l1).1 ≤ (runTicks n0 (l1 ++ l2)).1) := by
  refine ⟨processEntries_cons,
    fun n es es' h => processEntries_fst_of_length h, ?_, ?_⟩
  · intro n sz es inp hs he hgt h0 hlen
    rw [tick_fetch_ok inp hs hgt he]
    exact processEntries_fst_eq h0 hlen
  · intro n0 l1 l2 h0 htot
    rw [runTicks_append_fst]
    have htot_app : totalEntries (l1 ++ l2) =
        totalEntries l1 + totalEntries l2 := by
      simp [totalEntries]
    have hb1 := @runTicks_bounds n0 l1 h0 (by omega)
    have hb2 := @runTicks_bounds (runTicks n0 l1).1 l2
      (by omega) (by omega)
    omega

set_option maxRecDepth 8000 in
/-- Witness for C3, at the spec's §8 scenario: cursor 100, polled size 105,
a successful fetch returning 5 entries (here precertificates) advances the
cursor to exactly 105; the cursor result is the same as for 5 entries of any
other kind; and a run is non-decreasing. -/
theorem c3_witness :
    (tick 100 ⟨some 105,
        some (List.replicate 5 ⟨none, some (), none⟩)⟩).state = 105 ∧
    (processEntries 100 (List.replicate 5 ⟨none, some (), none⟩)).1 =
      (processEntries 100 (List.replicate 5 ⟨some ⟨none⟩, none, none⟩)).1 ∧
    (runTicks 100 ([] ++ [⟨some 105,
        some (List.replicate 5 ⟨none, some (), none⟩)⟩])).1 ≥
      (runTicks 100 ([] : List TickInput)).1 := by
  refine ⟨?_, ?_, ?_⟩
  · exact (c3_theorem.2.2.1 100 105 (List.replicate 5 ⟨none, some (), none⟩)
      ⟨some 105, some (List.replicate 5 ⟨none, some (), none⟩)⟩
      rfl rfl (by decide) (by decide) (by decide)).trans (by decide)
  · exact c3_theorem.2.1 100 (List.replicate 5 ⟨none, some (), none⟩)
      (List.replicate 5 ⟨some ⟨none⟩, none, none⟩) (by decide)
  · exact c3_theorem.2.2.2 100 [] [⟨some 105,
      some (List.replicate 5 ⟨none, some (), none⟩)⟩] (by decide) (by decide)

/-- Claim C4: every skipped entry — certificate parse failure, missing leaf
timestamp, precertificate, unknown type — produces zero output records; the
loop continues past it, the remaining entries producing their outcomes in
order; and the cursor still advances by exactly one for the skipped entry
(the advance being the `int64` increment, exact within the range), so the
entry is never revisited. -/
theorem c4_theorem (n : Int) (e : LogEntry) (rest : List LogEntry)
    (hskip : isSkipEntry e = true) :
    outcomeRecords (classifyEntry (wrap64 (n + 1)) e) = [] ∧
    (processEntries n (e :: rest)).2 =
      classifyEntry (wrap64 (n + 1)) e ::
        (processEntries (wrap64 (n + 1)) rest).2 ∧
    (processEntries n (e :: rest)).1 =
      (processEntries (wrap64 (n + 1)) rest).1 ∧
    (0 ≤ n → n + 1 < 2 ^ 63 → wrap64 (n + 1) = n + 1) := by
  refine ⟨?_, ?_, ?_, fun h0 h1 => wrap64_eq (by omega) h1⟩
  · cases hx : e.x509Cert with
    | none =>
      cases hp : e.precert with
      | none => simp [classifyEntry, outcomeRecords, hx, hp]
      | some u => simp [classifyEntry, outcomeRecords, hx, hp]
    | some raw =>
      cases hpr : raw.parse with
      | none => simp [classifyEntry, outcomeRecords, hx, hpr]
      | some cert =>
        cases ht : e.leafTimestamp with
        | none => simp [classifyEntry, outcomeRecords, hx, hpr, ht]
        | some ts =>
          exfalso
          unfold isSkipEntry at hskip
          rw [hx] at hskip
          simp [hpr, ht] at hskip
  · rw [processEntries_cons]
  · rw [processEntries_cons]

/-- Witness for C4: a precertificate entry at cursor 7 yields no record and
advances the cursor to 8. -/
theorem c4_witness :
    outcomeRecords (classifyEntry (wrap64 (7 + 1)) ⟨none, some (), none⟩)
      = [] ∧
    (processEntries 7 [⟨none, some (), none⟩]).1 = 8 := by
  have h := c4_theorem 7 ⟨none, some (), none⟩ [] (by decide)
  exact ⟨h.1, h.2.2.1.trans (by decide)⟩

/-- Claim C7: the cursor is initialised to exactly the tree size observed by
the first successful tree-head fetch (line 78), and in any subsequent run
every entry-fetch call starts at or above that initial size, so no entry
index below the initial tree size is ever requested or processed (stated for
tree sizes in the `int64` range and runs staying within it). -/
theorem c7_theorem (sz : Nat) (inps : List TickInput)
    (hsz : sz < 2 ^ 63)
    (htot : (sz : Int) + totalEntries inps < 2 ^ 63) :
    initialCursor sz = (sz : Int) ∧
    ∀ t ∈ (runTicks (initialCursor sz) inps).2, ∀ s e : Int,
      t.fetch = some (s, e) →
      (sz : Int) ≤ s ∧
        ∀ i : Int, getEntriesRequested s e i → (sz : Int) ≤ i := by
  have hinit : initialCursor sz = (sz : Int) := int64OfUInt64_eq hsz
  refine ⟨hinit, ?_⟩
  rw [hinit]
  intro t ht s e hf
  have hs := @runTicks_fetch_start (sz : Int) inps
    (by omega) htot t ht s e hf
  exact ⟨hs, fun i hi => le_trans hs hi.1⟩

set_option maxRecDepth 8000 in
/-- Witness for C7 at initial tree size 100 followed by one tick polling
size 105: the single fetch starts at 100, and every index it requests is at
least 100. -/
theorem c7_witness :
    initialCursor 100 = 100 ∧
    ((100 : Int) ≤ 100 ∧
      ∀ i : Int, getEntriesRequested 100 105 i → (100 : Int) ≤ i) := by
  have h := c7_theorem 100 [⟨some 105, none⟩] (by decide) (by decide)
  refine ⟨h.1.trans (by decide), ?_⟩
  exact h.2 (tick 100 ⟨some 105, none⟩) (by decide) 100 105 (by decide)

/-- Claim C8: for every emitted output record, the printed timestamp is the
entry's leaf timestamp interpreted as milliseconds since the Unix epoch,
converted to a calendar time and rendered in RFC 3339 — the code's rendering
pipeline (`time.Unix(0, int64(ts)*int64(time.Millisecond))` then
`Format(time.RFC3339)`) agrees with that reading for every timestamp whose
nanosecond value fits in `int64` (i.e. below the year 2262, where Go's
wrapping multiplication is exact). -/
theorem c8_theorem (n' : Int) (e : LogEntry) (raw : ASN1Cert)
    (cert : Certificate) (ts : Nat)
    (hx : e.x509Cert = some raw) (hp : raw.parse = some cert)
    (ht : e.leafTimestamp = some ts)
    (hts : (ts : Int) * 1000000 < 2 ^ 63) :
    classifyEntry n' e =
      .emitted ⟨formatEntryTimestamp ts, cert.issuer.string,
        cert.subject.string⟩ ∧
    formatEntryTimestamp ts = specRenderTimestamp ts := by
  constructor
  · obtain ⟨x, pc, lt⟩ := e
    replace hx : x = some raw := hx
    replace ht : lt = some ts := ht
    subst hx ht
    simp [classifyEntry, hp]
  · unfold formatEntryTimestamp specRenderTimestamp
    have h1 : wrap64 (ts : Int) = (ts : Int) := by
      apply wrap64_eq <;> omega
    rw [h1]
    have h2 : wrap64 ((ts : Int) * 1000000) = (ts : Int) * 1000000 := by
      apply wrap64_eq <;> omega
    rw [h2]
    have h3 : (ts : Int) * 1000000 / 1000000000 = (ts : Int) / 1000 := by
      omega
    rw [h3]

set_option maxRecDepth 8000 in
/-- Witness for C8 at leaf timestamp 1700000000000 ms: the emitted record
carries `2023-11-14T22:13:20Z`, which is also the spec-side rendering. -/
theorem c8_witness :
    classifyEntry 5 ⟨some ⟨some ⟨⟨"CA"⟩, ⟨"leaf"⟩, []⟩⟩, none,
        some 1700000000000⟩ =
      .emitted ⟨"2023-11-14T22:13:20Z", "CN=CA", "CN=leaf"⟩ ∧
    specRenderTimestamp 1700000000000 = "2023-11-14T22:13:20Z" := by
  have h := c8_theorem 5
    ⟨some ⟨some ⟨⟨"CA"⟩, ⟨"leaf"⟩, []⟩⟩, none, some 1700000000000⟩
    ⟨some ⟨⟨"CA"⟩, ⟨"leaf"⟩, []⟩⟩ ⟨⟨"CA"⟩, ⟨"leaf"⟩, []⟩ 1700000000000
    rfl rfl rfl (by decide)
  exact ⟨h.1.trans (by decide), h.2.symm.trans (by decide)⟩

end CertTail
